import Mathlib

/-!
Shallow embedding of the mod-interval crate (src/lib.rs).

Modelling conventions:
* `f64` values are modelled by `FP`: exact rationals for finite values plus
  the IEEE-754 special values +infinity, -infinity and NaN.  The special-value
  propagation rules of IEEE-754 arithmetic (division by zero, infinity times
  zero = NaN, NaN propagation, ...) are modelled exactly; rounding of finite
  results is idealized away (finite arithmetic is exact rational arithmetic).
  Signed zero is not modelled: both IEEE zeros collapse to the rational 0,
  matching the fact that `-0.0 == 0.0` and that `Duration::from_secs_f64`
  accepts both zeros.
* `std::time::Duration` and `std::time::Instant` are modelled as nanosecond
  counts (`Nat`).  `Instant - Instant` saturates at zero (as in current Rust),
  while `Duration - Duration` underflow and the failure of
  `Duration::from_secs_f64` on negative / non-finite / out-of-range inputs
  are Rust panics, modelled by `PullResult.panic` / `Option.none`.
* `u64` arithmetic is modelled on `Nat` with explicit reduction modulo `2^64`
  (release-mode wrapping semantics).
* The `stream::unfold` closure of `ModInterval::into_stream` is modelled as
  the explicit step function `pull` on the captured state (segment queue plus
  optional active-segment record); one invocation of `pull` is one pull of
  the stream.  `PullResult.done` is the end-of-stream signal (no suspension
  is performed on that path), `PullResult.output wait ts g` is a pull that
  suspends for `wait` nanoseconds and then emits the timestamp `ts` with
  updated captured state `g`, and `PullResult.panic` is a Rust panic.
-/

namespace ModIntervalSpec

/-- Model of an `f64` value: NaN, the two infinities, or an exact finite
rational. -/
inductive FP where
  | nan : FP
  | pinf : FP
  | ninf : FP
  | finite : ℚ → FP
deriving DecidableEq

/-- IEEE-754 addition on the model (finite arithmetic exact). -/
def FP.add : FP → FP → FP
  | .nan, _ => .nan
  | _, .nan => .nan
  | .pinf, .ninf => .nan
  | .ninf, .pinf => .nan
  | .pinf, _ => .pinf
  | .ninf, _ => .ninf
  | .finite _, .pinf => .pinf
  | .finite _, .ninf => .ninf
  | .finite a, .finite b => .finite (a + b)

/-- IEEE-754 subtraction on the model (finite arithmetic exact). -/
def FP.sub : FP → FP → FP
  | .nan, _ => .nan
  | _, .nan => .nan
  | .pinf, .pinf => .nan
  | .ninf, .ninf => .nan
  | .pinf, _ => .pinf
  | .ninf, _ => .ninf
  | .finite _, .pinf => .ninf
  | .finite _, .ninf => .pinf
  | .finite a, .finite b => .finite (a - b)

/-- IEEE-754 multiplication on the model: infinity times zero is NaN, NaN
propagates, finite arithmetic exact. -/
def FP.mul : FP → FP → FP
  | .nan, _ => .nan
  | _, .nan => .nan
  | .pinf, .pinf => .pinf
  | .pinf, .ninf => .ninf
  | .ninf, .pinf => .ninf
  | .ninf, .ninf => .pinf
  | .pinf, .finite b => if 0 < b then .pinf else if b < 0 then .ninf else .nan
  | .finite a, .pinf => if 0 < a then .pinf else if a < 0 then .ninf else .nan
  | .ninf, .finite b => if 0 < b then .ninf else if b < 0 then .pinf else .nan
  | .finite a, .ninf => if 0 < a then .ninf else if a < 0 then .pinf else .nan
  | .finite a, .finite b => .finite (a * b)

/-- IEEE-754 division on the model: a nonzero finite value divided by zero is
a signed infinity, zero divided by zero is NaN, a finite value divided by an
infinity is zero, infinity divided by infinity is NaN. -/
def FP.div : FP → FP → FP
  | .nan, _ => .nan
  | _, .nan => .nan
  | .pinf, .pinf => .nan
  | .pinf, .ninf => .nan
  | .ninf, .pinf => .nan
  | .ninf, .ninf => .nan
  | .pinf, .finite b => if 0 ≤ b then .pinf else .ninf
  | .ninf, .finite b => if 0 ≤ b then .ninf else .pinf
  | .finite _, .pinf => .finite 0
  | .finite _, .ninf => .finite 0
  | .finite a, .finite b =>
    if b = 0 then (if 0 < a then .pinf else if a < 0 then .ninf else .nan)
    else .finite (a / b)

/-- Rational stand-in for the square root of a finite nonnegative value.
The claims only ever exercise `FP.sqrt` on NaN and the infinities (the source
applies it to `8.0 * m` where `m` is never finite), so the finite branch is a
modelling placeholder built from `Nat.sqrt`. -/
def ratSqrt (q : ℚ) : ℚ := (Nat.sqrt q.num.toNat : ℚ) / (Nat.sqrt q.den : ℚ)

/-- IEEE-754 square root on the model: NaN for negative inputs and NaN,
+infinity for +infinity. -/
def FP.sqrt : FP → FP
  | .nan => .nan
  | .pinf => .pinf
  | .ninf => .nan
  | .finite q => if q < 0 then .nan else .finite (ratSqrt q)

/-- Nanoseconds per second, for `Duration` conversions. -/
def NANOS_PER_SEC : ℕ := 1000000000

/-- Wrapping modulus of `u64` arithmetic. -/
def U64 : ℕ := 2 ^ 64

/-- Model of `Duration::as_secs_f64` on a nanosecond count (exact in the
model; the rounding of the real conversion is idealized away). -/
def durToFP (d : ℕ) : FP := FP.finite ((d : ℚ) / (NANOS_PER_SEC : ℚ))

/-- Model of `Duration::from_secs_f64`: panics (`none`) on NaN, the
infinities, negative values and values of `2^64` seconds or more; otherwise
rounds to the nearest nanosecond count (half-up in the model; the real
conversion breaks exact half-nanosecond ties to even, a case no claim
exercises). -/
def fromSecsF64 : FP → Option ℕ
  | FP.finite q =>
    if 0 ≤ q ∧ q < (U64 : ℚ) then
      some (Int.floor (q * (NANOS_PER_SEC : ℚ) + 1 / 2)).toNat
    else none
  | _ => none

/-- The `LinearSegment` struct of src/lib.rs: slope `m`, intercept `b`, the
special-cased value at zero `zero_x`, and the segment duration (nanoseconds). -/
structure LinearSegment where
  m : FP
  b : FP
  zero_x : Option FP
  duration : ℕ
deriving DecidableEq

/-- The method `LinearSegment::get_y`: returns the precomputed `zero_x` value
when `x == 0.0` and it is present, otherwise `m * x + b`. -/
def LinearSegment.get_y (s : LinearSegment) (x : FP) : FP :=
  if x = FP.finite 0 then
    match s.zero_x with
    | some y => y
    | none => FP.add (FP.mul s.m x) s.b
  else FP.add (FP.mul s.m x) s.b

/-- The `PerX` struct: an event rate stored as a count per minute (`u64`). -/
structure PerX where
  val : ℕ
deriving DecidableEq

/-- The constructor `PerX::minute`: stores the count unchanged (the argument
is a `u64` value, represented reduced modulo `2^64`). -/
def PerX.minute (n : ℕ) : PerX := ⟨n % U64⟩

/-- The constructor `PerX::second`: stores `sec * 60` computed in `u64`
arithmetic (release-mode wrapping semantics). -/
def PerX.second (sec : ℕ) : PerX := ⟨sec * 60 % U64⟩

/-- The method `PerX::as_per_second`: `self.0 as f64 / 60.0`. The model
computes the quotient exactly, while the program rounds twice: the `u64` to
`f64` conversion rounds above `2 ^ 53`, and the division rounds whenever the
true quotient is not representable. Exact-value statements about this
definition are therefore confined to inputs whose conversion and quotient
are both exactly representable (stored counts at most `2 ^ 53` with a
representable quotient); every other use in this development depends only
on the result being finite, and zero or nonzero, on which the exact model
and the rounding program agree. -/
def PerX.as_per_second (p : PerX) : FP := FP.div (FP.finite (p.val : ℚ)) (FP.finite 60)

/-- The `ModInterval` struct: the segment queue (`VecDeque`, front at the
list head) and the running total duration. -/
structure ModInterval where
  segments : List LinearSegment
  duration : ℕ
deriving DecidableEq

/-- The constructor `ModInterval::new`: empty queue, zero total duration. -/
def ModInterval.new : ModInterval := ⟨[], 0⟩

/-- The method `ModInterval::append_segment`, translated line by line:
`x1`/`x2` are the endpoint rates in events per second, `y2` the duration in
seconds, the slope is `y2 / (x2 - x2)` (as written in the source: the
denominator is the end rate minus itself), the intercept is `x1`, and a
substitute value at zero is precomputed when either endpoint rate is zero.
`Duration` addition overflow (which would panic in Rust after about
`2^64` seconds of accumulated duration) is idealized away by `Nat` addition. -/
def ModInterval.append_segment (mi : ModInterval) (start : PerX) (duration : ℕ)
    (endr : PerX) : ModInterval :=
  let x1 := start.as_per_second
  let x2 := endr.as_per_second
  let y2 := durToFP duration
  let m := FP.div y2 (FP.sub x2 x2)
  let b := x1
  let zero_x : Option FP :=
    if x1 = FP.finite 0 ∨ x2 = FP.finite 0 then
      some (FP.div (FP.finite 1000)
        (FP.div (FP.sqrt (FP.mul (FP.finite 8) m)) (FP.mul (FP.finite 2) m)))
    else none
  { segments := mi.segments ++ [⟨m, b, zero_x, duration⟩],
    duration := mi.duration + duration }

/-- The state captured by the `stream::unfold` closure once a segment is
active: the instant the segment chain started, the active segment, and the
accumulated offset of finished segments. -/
structure ModIntervalStreamState where
  start_time : ℕ
  segment : LinearSegment
  x_offset : ℕ
deriving DecidableEq

/-- The full captured state of the unfold closure: the remaining queue and
the optional active-segment record. -/
structure GenState where
  segments : List LinearSegment
  state : Option ModIntervalStreamState
deriving DecidableEq

/-- The method `ModInterval::into_stream` at the moment the stream is
created: the queue is moved into the closure and `state` is `None`. -/
def ModInterval.into_stream (mi : ModInterval) : GenState := ⟨mi.segments, none⟩

/-- Outcome of one pull of the stream: end-of-stream, a Rust panic, or a
suspension of `wait` nanoseconds followed by the emission of a timestamp
together with the updated captured state. -/
inductive PullResult where
  | done : PullResult
  | panic : PullResult
  | output : ℕ → ℕ → GenState → PullResult
deriving DecidableEq

/-- The rate-to-wait conversion of the pull body:
`Duration::from_secs_f64(1000.0 / target_hits_per_second)`. -/
def computeWait (target : FP) : Option ℕ :=
  fromSecsF64 (FP.div (FP.finite 1000) target)

/-- Tail of the pull body: evaluate the active segment at elapsed time `x`,
convert to a wait, sleep, and emit `now + y`; a failed conversion is a Rust
panic. -/
def emit (segs : List LinearSegment) (st : ModIntervalStreamState) (x now : ℕ) :
    PullResult :=
  match computeWait (st.segment.get_y (durToFP x)) with
  | some y => PullResult.output y (now + y) ⟨segs, some st⟩
  | none => PullResult.panic

/-- The pull body once a state is present: compute
`x = now - start_time - x_offset` (`Instant` subtraction saturates at zero,
modelled by truncated `Nat` subtraction; the subsequent `Duration`
subtraction panics on underflow), advance to the next segment when `x`
strictly exceeds the active duration (end-of-stream when the queue is
empty), then evaluate and emit. -/
def pullActive (segs : List LinearSegment) (st : ModIntervalStreamState) (now : ℕ) :
    PullResult :=
  if st.x_offset ≤ now - st.start_time then
    if st.segment.duration < now - st.start_time - st.x_offset then
      match segs with
      | [] => PullResult.done
      | s2 :: rest =>
        emit rest ⟨st.start_time, s2, st.x_offset + st.segment.duration⟩
          (now - st.start_time - st.x_offset - st.segment.duration) now
    else emit segs st (now - st.start_time - st.x_offset) now
  else PullResult.panic

/-- One pull of the stream produced by `into_stream`: when no state is
present, pop a segment (end-of-stream if the queue is empty) and activate it
with `start_time = now` and a zero offset, then run the common body. -/
def pull (g : GenState) (now : ℕ) : PullResult :=
  match g.state with
  | some st => pullActive g.segments st now
  | none =>
    match g.segments with
    | [] => PullResult.done
    | s :: rest => pullActive rest ⟨now, s, 0⟩ now

/-- One caller-side append call, as a fold step over a list of
`(start, duration, end)` argument triples. -/
def appendCall (mi : ModInterval) (c : PerX × ℕ × PerX) : ModInterval :=
  mi.append_segment c.1 c.2.1 c.2.2

/-- A plan built from `ModInterval::new` by a sequence of
`append_segment` calls. -/
def buildPlan (calls : List (PerX × ℕ × PerX)) : ModInterval :=
  calls.foldl appendCall ModInterval.new

/-! Constructor-case equations for the `FP` operations, used to evaluate the
model on concrete and symbolic inputs. -/

@[simp] lemma FP.add_nan_left (y : FP) : FP.add FP.nan y = FP.nan := by
  cases y <;> rfl

@[simp] lemma FP.add_nan_right (x : FP) : FP.add x FP.nan = FP.nan := by
  cases x <;> rfl

@[simp] lemma FP.add_pinf_finite (b : ℚ) : FP.add FP.pinf (FP.finite b) = FP.pinf := rfl

@[simp] lemma FP.add_finite_finite (a b : ℚ) :
    FP.add (FP.finite a) (FP.finite b) = FP.finite (a + b) := rfl

@[simp] lemma FP.sub_finite_finite (a b : ℚ) :
    FP.sub (FP.finite a) (FP.finite b) = FP.finite (a - b) := rfl

@[simp] lemma FP.mul_nan_left (y : FP) : FP.mul FP.nan y = FP.nan := by
  cases y <;> rfl

@[simp] lemma FP.mul_nan_right (x : FP) : FP.mul x FP.nan = FP.nan := by
  cases x <;> rfl

@[simp] lemma FP.mul_finite_finite (a b : ℚ) :
    FP.mul (FP.finite a) (FP.finite b) = FP.finite (a * b) := rfl

@[simp] lemma FP.mul_pinf_finite (b : ℚ) :
    FP.mul FP.pinf (FP.finite b) =
      if 0 < b then FP.pinf else if b < 0 then FP.ninf else FP.nan := rfl

@[simp] lemma FP.mul_finite_pinf (a : ℚ) :
    FP.mul (FP.finite a) FP.pinf =
      if 0 < a then FP.pinf else if a < 0 then FP.ninf else FP.nan := rfl

@[simp] lemma FP.mul_pinf_pinf : FP.mul FP.pinf FP.pinf = FP.pinf := rfl

@[simp] lemma FP.div_nan_left (y : FP) : FP.div FP.nan y = FP.nan := by
  cases y <;> rfl

@[simp] lemma FP.div_nan_right (x : FP) : FP.div x FP.nan = FP.nan := by
  cases x <;> rfl

@[simp] lemma FP.div_finite_finite (a b : ℚ) :
    FP.div (FP.finite a) (FP.finite b) =
      if b = 0 then (if 0 < a then FP.pinf else if a < 0 then FP.ninf else FP.nan)
      else FP.finite (a / b) := rfl

@[simp] lemma FP.div_finite_pinf (a : ℚ) :
    FP.div (FP.finite a) FP.pinf = FP.finite 0 := rfl

@[simp] lemma FP.div_finite_ninf (a : ℚ) :
    FP.div (FP.finite a) FP.ninf = FP.finite 0 := rfl

@[simp] lemma FP.div_pinf_pinf : FP.div FP.pinf FP.pinf = FP.nan := rfl

@[simp] lemma FP.div_pinf_finite (b : ℚ) :
    FP.div FP.pinf (FP.finite b) = if 0 ≤ b then FP.pinf else FP.ninf := rfl

@[simp] lemma FP.sqrt_nan : FP.sqrt FP.nan = FP.nan := rfl

@[simp] lemma FP.sqrt_pinf : FP.sqrt FP.pinf = FP.pinf := rfl

@[simp] lemma fromSecsF64_nan : fromSecsF64 FP.nan = none := rfl

@[simp] lemma fromSecsF64_pinf : fromSecsF64 FP.pinf = none := rfl

@[simp] lemma fromSecsF64_ninf : fromSecsF64 FP.ninf = none := rfl

lemma fromSecsF64_finite (q : ℚ) :
    fromSecsF64 (FP.finite q) =
      if 0 ≤ q ∧ q < (U64 : ℚ) then
        some (Int.floor (q * (NANOS_PER_SEC : ℚ) + 1 / 2)).toNat
      else none := rfl

/-! Evaluation helpers for the derived quantities. -/

lemma fromSecsF64_eval (q : ℚ) (n : ℕ) (h0 : 0 ≤ q) (h1 : q < (U64 : ℚ))
    (hlo : (n : ℚ) ≤ q * (NANOS_PER_SEC : ℚ) + 1 / 2)
    (hhi : q * (NANOS_PER_SEC : ℚ) + 1 / 2 < n + 1) :
    fromSecsF64 (FP.finite q) = some n := by
  rw [fromSecsF64_finite, if_pos ⟨h0, h1⟩]
  have hfl : Int.floor (q * (NANOS_PER_SEC : ℚ) + 1 / 2) = (n : ℤ) := by
    rw [Int.floor_eq_iff]
    constructor
    · exact_mod_cast hlo
    · exact_mod_cast hhi
  rw [hfl]
  simp

lemma fromSecsF64_neg (q : ℚ) (h : q < 0) : fromSecsF64 (FP.finite q) = none := by
  rw [fromSecsF64_finite, if_neg]
  intro hc
  exact absurd h (not_lt.mpr hc.1)

lemma durToFP_zero : durToFP 0 = FP.finite 0 := by
  simp [durToFP]

lemma as_per_second_eq (p : PerX) :
    p.as_per_second = FP.finite ((p.val : ℚ) / 60) := by
  rw [PerX.as_per_second, FP.div_finite_finite, if_neg]
  norm_num

lemma sub_as_per_second_self (p : PerX) :
    FP.sub p.as_per_second p.as_per_second = FP.finite 0 := by
  rw [as_per_second_eq, FP.sub_finite_finite, sub_self]

lemma append_slope (d : ℕ) (p : PerX) :
    FP.div (durToFP d) (FP.sub p.as_per_second p.as_per_second) =
      if d = 0 then FP.nan else FP.pinf := by
  rw [sub_as_per_second_self]
  unfold durToFP
  rw [FP.div_finite_finite, if_pos rfl]
  rcases Nat.eq_zero_or_pos d with h | h
  · subst h
    norm_num
  · have hd : (0 : ℚ) < (d : ℚ) / (NANOS_PER_SEC : ℚ) := by
      have h1 : (0 : ℚ) < (d : ℚ) := by exact_mod_cast h
      have h2 : (0 : ℚ) < (NANOS_PER_SEC : ℚ) := by norm_num [NANOS_PER_SEC]
      positivity
    rw [if_pos hd, if_neg (Nat.pos_iff_ne_zero.mp h)]

/-- The record produced by one `append_segment` call, with the let-bound
fields of the source spelled out. -/
lemma append_segment_eq (mi : ModInterval) (start : PerX) (d : ℕ) (endr : PerX) :
    mi.append_segment start d endr =
      { segments := mi.segments ++
          [⟨FP.div (durToFP d) (FP.sub endr.as_per_second endr.as_per_second),
            start.as_per_second,
            if start.as_per_second = FP.finite 0 ∨ endr.as_per_second = FP.finite 0 then
              some (FP.div (FP.finite 1000)
                (FP.div (FP.sqrt (FP.mul (FP.finite 8)
                    (FP.div (durToFP d) (FP.sub endr.as_per_second endr.as_per_second))))
                  (FP.mul (FP.finite 2)
                    (FP.div (durToFP d) (FP.sub endr.as_per_second endr.as_per_second)))))
            else none, d⟩],
        duration := mi.duration + d } := rfl

lemma minute_as_per_second (n : ℕ) (h : n < U64) :
    (PerX.minute n).as_per_second = FP.finite ((n : ℚ) / 60) := by
  have hv : (PerX.minute n).val = n := by
    simp [PerX.minute, Nat.mod_eq_of_lt h]
  rw [as_per_second_eq, hv]

lemma second_as_per_second (n : ℕ) (h : n * 60 < U64) :
    (PerX.second n).as_per_second = FP.finite (n : ℚ) := by
  have hv : (PerX.second n).val = n * 60 := by
    simp [PerX.second, Nat.mod_eq_of_lt h]
  rw [as_per_second_eq, hv]
  congr 1
  push_cast
  rw [mul_div_assoc]
  norm_num

/-- An `append_segment` call whose endpoint rates are nonzero finite values
and whose duration is positive produces the segment
`slope = +infinity, intercept = start rate, no zero substitute`. -/
lemma append_segment_pos (mi : ModInterval) (start : PerX) (d : ℕ) (endr : PerX)
    (hd : d ≠ 0) (q1 q2 : ℚ)
    (h1 : start.as_per_second = FP.finite q1) (h2 : endr.as_per_second = FP.finite q2)
    (hq1 : q1 ≠ 0) (hq2 : q2 ≠ 0) :
    mi.append_segment start d endr =
      { segments := mi.segments ++ [⟨FP.pinf, FP.finite q1, none, d⟩],
        duration := mi.duration + d } := by
  have hc : ¬(start.as_per_second = FP.finite 0 ∨ endr.as_per_second = FP.finite 0) := by
    rw [h1, h2]
    simp [hq1, hq2]
  rw [append_segment_eq, if_neg hc, h1, append_slope, if_neg hd]

lemma get_y_zero_pinf (bq : ℚ) (d : ℕ) :
    LinearSegment.get_y ⟨FP.pinf, FP.finite bq, none, d⟩ (FP.finite 0) = FP.nan := by
  simp [LinearSegment.get_y]

lemma get_y_pos_pinf (bq : ℚ) (d : ℕ) (x : ℚ) (hx : 0 < x) :
    LinearSegment.get_y ⟨FP.pinf, FP.finite bq, none, d⟩ (FP.finite x) = FP.pinf := by
  have hne : FP.finite x ≠ FP.finite 0 := by simp [ne_of_gt hx]
  simp [LinearSegment.get_y, hne, hx]

lemma computeWait_nan : computeWait FP.nan = none := rfl

lemma pull_none_cons (s : LinearSegment) (rest : List LinearSegment) (now : ℕ) :
    pull ⟨s :: rest, none⟩ now = pullActive rest ⟨now, s, 0⟩ now := rfl

lemma pull_some (segs : List LinearSegment) (st : ModIntervalStreamState) (now : ℕ) :
    pull ⟨segs, some st⟩ now = pullActive segs st now := rfl

/-- The first pull that activates a fresh segment evaluates it at elapsed
time zero. -/
lemma pullActive_fresh (segs : List LinearSegment) (s : LinearSegment) (now : ℕ) :
    pullActive segs ⟨now, s, 0⟩ now = emit segs ⟨now, s, 0⟩ 0 now := by
  unfold pullActive
  simp

/-- The segment produced by
`append_segment(PerX::second(1), Duration::from_secs(1), PerX::second(2))`,
the C1 scenario of one segment from 1 event per second to 2 events per
second over one second. -/
def c1seg : LinearSegment :=
  ((ModInterval.new).append_segment (PerX.second 1) 1000000000
    (PerX.second 2)).segments.getD 0 ⟨FP.nan, FP.nan, none, 0⟩

lemma c1seg_eq : c1seg = ⟨FP.pinf, FP.finite 1, none, 1000000000⟩ := by
  rw [c1seg, append_segment_pos ModInterval.new (PerX.second 1) 1000000000 (PerX.second 2)
    (by norm_num) 1 2 (by rw [second_as_per_second 1 (by norm_num [U64])]; norm_num)
    (by rw [second_as_per_second 2 (by norm_num [U64])]; norm_num)
    (by norm_num) (by norm_num)]
  rfl

/-- Claim C1 fails on the code: for the segment built from start rate 1
event per second, end rate 2 events per second and duration 1 second, the
slope computed by `append_segment` is `duration / (end - end) = +infinity`,
so the rate function evaluates to NaN at `t = 0` (instead of the claimed
start rate 1) and to +infinity at `t = duration` (instead of the claimed
end rate 2): the rate function is not the claimed affine interpolation. -/
theorem c1_rate_function_not_affine :
    c1seg.get_y (FP.finite 0) = FP.nan ∧
    c1seg.get_y (durToFP 1000000000) = FP.pinf ∧
    (PerX.second 1).as_per_second = FP.finite 1 ∧
    (PerX.second 2).as_per_second = FP.finite 2 := by
  have hdur : durToFP 1000000000 = FP.finite 1 := by
    rw [durToFP]
    norm_num [NANOS_PER_SEC]
  refine ⟨?_, ?_, ?_, ?_⟩
  · rw [c1seg_eq]
    exact get_y_zero_pinf 1 1000000000
  · rw [c1seg_eq, hdur]
    exact get_y_pos_pinf 1 1000000000 1 (by norm_num)
  · rw [second_as_per_second 1 (by norm_num [U64])]
    norm_num
  · rw [second_as_per_second 2 (by norm_num [U64])]
    norm_num

/-- Claim C2 fails on the code: at a target rate of 2 events per second the
pull body converts `1000.0 / 2.0 = 500.0` with `Duration::from_secs_f64`,
suspending for 500 seconds, while the reciprocal `1 / 2` second claimed by
the spec is 500000000 nanoseconds: the computed wait is 1000 times the
claimed one. -/
theorem c2_wait_is_1000_over_rate :
    computeWait (FP.finite 2) = some 500000000000 ∧
    fromSecsF64 (FP.div (FP.finite 1) (FP.finite 2)) = some 500000000 := by
  constructor
  · rw [computeWait, FP.div_finite_finite, if_neg (by norm_num : (2 : ℚ) ≠ 0)]
    rw [show (1000 : ℚ) / 2 = 500 by norm_num]
    exact fromSecsF64_eval 500 500000000000 (by norm_num) (by norm_num [U64])
      (by norm_num [NANOS_PER_SEC]) (by norm_num [NANOS_PER_SEC])
  · rw [FP.div_finite_finite, if_neg (by norm_num : (2 : ℚ) ≠ 0)]
    exact fromSecsF64_eval (1 / 2) 500000000 (by norm_num) (by norm_num [U64])
      (by norm_num [NANOS_PER_SEC]) (by norm_num [NANOS_PER_SEC])

/-- Claim C3 fails on the code: for the plan with one segment of start rate
60 events per minute, end rate 60 events per minute and duration 10 seconds,
the very first pull panics inside `Duration::from_secs_f64` (the slope is
`duration / (end - end) = +infinity`, so the rate at elapsed time zero is
`+infinity * 0 + 1 = NaN`), instead of waiting about one second. -/
theorem c3_scenario_a_first_pull_panics :
    pull (ModInterval.into_stream
      (buildPlan [(PerX.minute 60, 10000000000, PerX.minute 60)])) 0 =
      PullResult.panic := by
  have hplan : buildPlan [(PerX.minute 60, 10000000000, PerX.minute 60)] =
      { segments := [⟨FP.pinf, FP.finite 1, none, 10000000000⟩], duration := 10000000000 } := by
    rw [buildPlan, List.foldl_cons, List.foldl_nil, appendCall,
      append_segment_pos ModInterval.new (PerX.minute 60) 10000000000 (PerX.minute 60)
        (by norm_num) 1 1
        (by rw [minute_as_per_second 60 (by norm_num [U64])]; norm_num)
        (by rw [minute_as_per_second 60 (by norm_num [U64])]; norm_num)
        (by norm_num) (by norm_num)]
    rfl
  rw [hplan, ModInterval.into_stream, pull_none_cons, pullActive_fresh, emit,
    durToFP_zero, get_y_zero_pinf, computeWait_nan]

/-- Claim C5 holds: converting an empty plan is legal, and the resulting
generator signals end-of-stream on the very first pull (the `done` path
performs no suspension and emits no timestamp). -/
theorem c5_empty_plan_done (now : ℕ) :
    pull (ModInterval.into_stream ModInterval.new) now = PullResult.done := rfl

/-- Claim C6 holds: on a pull in the active state whose elapsed time
strictly exceeds the active segment duration, the generator pops the next
segment (end-of-stream when the queue is empty), subtracts the finished
duration from the elapsed time, adds it to the carried offset, installs the
popped segment as active, and evaluates the new segment at the adjusted
elapsed time. -/
theorem c6_segment_transition (s2 : LinearSegment) (rest : List LinearSegment)
    (st : ModIntervalStreamState) (now : ℕ)
    (h1 : st.x_offset ≤ now - st.start_time)
    (h2 : st.segment.duration < now - st.start_time - st.x_offset) :
    (pull ⟨s2 :: rest, some st⟩ now =
      match computeWait (s2.get_y (durToFP
          (now - st.start_time - st.x_offset - st.segment.duration))) with
      | some y => PullResult.output y (now + y)
          ⟨rest, some ⟨st.start_time, s2, st.x_offset + st.segment.duration⟩⟩
      | none => PullResult.panic) ∧
    pull ⟨[], some st⟩ now = PullResult.done := by
  constructor
  · rw [pull_some, pullActive, if_pos h1, if_pos h2, emit]
  · rw [pull_some, pullActive, if_pos h1, if_pos h2]

/-- Concrete instance discharging the hypotheses of the C6 theorem: a pull
at 3 seconds against an active segment of duration 1 second and a queue
holding one further segment. -/
theorem c6_segment_transition_witness :
    ((0 : ℕ) ≤ 3000000000 - 0 ∧ (1000000000 : ℕ) < 3000000000 - 0 - 0) ∧
    (pull ⟨[⟨FP.pinf, FP.finite 7, none, 5000000000⟩],
        some ⟨0, ⟨FP.nan, FP.nan, none, 1000000000⟩, 0⟩⟩ 3000000000 =
      match computeWait (LinearSegment.get_y ⟨FP.pinf, FP.finite 7, none, 5000000000⟩
          (durToFP (3000000000 - 0 - 0 - 1000000000))) with
      | some y => PullResult.output y (3000000000 + y)
          ⟨[], some ⟨0, ⟨FP.pinf, FP.finite 7, none, 5000000000⟩, 0 + 1000000000⟩⟩
      | none => PullResult.panic) ∧
    pull ⟨[], some ⟨0, ⟨FP.nan, FP.nan, none, 1000000000⟩, 0⟩⟩ 3000000000 =
      PullResult.done := by
  refine ⟨⟨by norm_num, by norm_num⟩, ?_, ?_⟩
  · exact (c6_segment_transition ⟨FP.pinf, FP.finite 7, none, 5000000000⟩ []
      ⟨0, ⟨FP.nan, FP.nan, none, 1000000000⟩, 0⟩ 3000000000
      (by norm_num) (by norm_num)).1
  · exact (c6_segment_transition ⟨FP.pinf, FP.finite 7, none, 5000000000⟩ []
      ⟨0, ⟨FP.nan, FP.nan, none, 1000000000⟩, 0⟩ 3000000000
      (by norm_num) (by norm_num)).2

lemma foldl_duration (calls : List (PerX × ℕ × PerX)) (mi : ModInterval)
    (h : mi.duration = (mi.segments.map LinearSegment.duration).sum) :
    (calls.foldl appendCall mi).duration =
      ((calls.foldl appendCall mi).segments.map LinearSegment.duration).sum := by
  induction calls generalizing mi with
  | nil => simpa using h
  | cons c rest ih =>
    rw [List.foldl_cons]
    apply ih
    rw [appendCall, append_segment_eq]
    simp [h]

/-- Claim C7 holds: after any sequence of `append_segment` calls starting
from `ModInterval::new`, the stored total duration equals the sum of the
durations of the queued segments (the invariant is established at `new` and
preserved by each append, which is the induction step of the proof). -/
theorem c7_duration_invariant (calls : List (PerX × ℕ × PerX)) :
    (buildPlan calls).duration =
      ((buildPlan calls).segments.map LinearSegment.duration).sum :=
  foldl_duration calls ModInterval.new (by simp [ModInterval.new])

/-- Claim C10 holds: `PerX::second` computes `sec * 60` in wrapping `u64`
arithmetic, so the stored per-minute count is exactly `60 * sec` while that
product fits in 64 bits and differs from it as soon as it wraps. -/
theorem c10_second_constructor_overflow (sec : ℕ) :
    (60 * sec < U64 → (PerX.second sec).val = 60 * sec) ∧
    (U64 ≤ 60 * sec → (PerX.second sec).val ≠ 60 * sec) := by
  have hval : (PerX.second sec).val = sec * 60 % U64 := rfl
  have hu : 0 < U64 := by norm_num [U64]
  constructor
  · intro h
    rw [hval, mul_comm sec 60, Nat.mod_eq_of_lt h]
  · intro h heq
    have hlt : (PerX.second sec).val < U64 := by
      rw [hval]
      exact Nat.mod_lt _ hu
    omega

/-- Concrete instances discharging the hypotheses of the C10 theorem: no
wrap at `sec = 1`, wrap at `sec = 2 ^ 63`. -/
theorem c10_second_constructor_overflow_witness :
    (60 * 1 < U64 ∧ (PerX.second 1).val = 60 * 1) ∧
    (U64 ≤ 60 * 2 ^ 63 ∧ (PerX.second (2 ^ 63)).val ≠ 60 * 2 ^ 63) :=
  ⟨⟨by norm_num [U64], (c10_second_constructor_overflow 1).1 (by norm_num [U64])⟩,
   ⟨by norm_num [U64], (c10_second_constructor_overflow (2 ^ 63)).2 (by norm_num [U64])⟩⟩

lemma get_y_zero_some (mFP bFP z : FP) (d : ℕ) :
    LinearSegment.get_y ⟨mFP, bFP, some z, d⟩ (FP.finite 0) = z := by
  rw [LinearSegment.get_y, if_pos rfl]

lemma get_y_zero_none (mFP bFP : FP) (d : ℕ) :
    LinearSegment.get_y ⟨mFP, bFP, none, d⟩ (FP.finite 0) =
      FP.add (FP.mul mFP (FP.finite 0)) bFP := by
  rw [LinearSegment.get_y, if_pos rfl]

lemma computeWait_zero : computeWait (FP.finite 0) = none := by
  rw [computeWait, FP.div_finite_finite, if_pos rfl,
    if_pos (by norm_num : (0 : ℚ) < 1000)]
  exact fromSecsF64_pinf

lemma computeWait_pinf : computeWait FP.pinf = some 0 := by
  rw [computeWait, FP.div_finite_pinf]
  exact fromSecsF64_eval 0 0 le_rfl (by norm_num [U64]) (by norm_num)
    (by norm_num [NANOS_PER_SEC])

/-- A segment whose slope is +infinity or NaN makes the wait conversion at
elapsed time zero fail, whichever branch produced its `zero_x` field. -/
lemma computeWait_get_y_zero (mFP : FP) (hm : mFP = FP.pinf ∨ mFP = FP.nan)
    (bFP : FP) (cond : Prop) [Decidable cond] (d : ℕ) :
    computeWait (LinearSegment.get_y
      ⟨mFP, bFP,
        if cond then
          some (FP.div (FP.finite 1000)
            (FP.div (FP.sqrt (FP.mul (FP.finite 8) mFP)) (FP.mul (FP.finite 2) mFP)))
        else none, d⟩ (FP.finite 0)) = none := by
  by_cases hc : cond
  · rw [if_pos hc, get_y_zero_some]
    rcases hm with rfl | rfl
    · norm_num [computeWait_nan]
    · norm_num [computeWait_nan]
  · rw [if_neg hc, get_y_zero_none]
    rcases hm with rfl | rfl
    · norm_num [computeWait_nan]
    · norm_num [computeWait_nan]

lemma foldl_panics (calls : List (PerX × ℕ × PerX)) (mi : ModInterval)
    (h : ∀ s ∈ mi.segments, computeWait (s.get_y (FP.finite 0)) = none) :
    ∀ s ∈ (calls.foldl appendCall mi).segments,
      computeWait (s.get_y (FP.finite 0)) = none := by
  induction calls generalizing mi with
  | nil => simpa using h
  | cons c rest ih =>
    rw [List.foldl_cons]
    apply ih
    intro s hs
    rw [appendCall, append_segment_eq] at hs
    simp only [List.mem_append, List.mem_singleton] at hs
    rcases hs with hs | hs
    · exact h s hs
    · subst hs
      rw [append_slope]
      by_cases hd : c.2.1 = 0
      · rw [if_pos hd]
        exact computeWait_get_y_zero FP.nan (Or.inr rfl) _ _ _
      · rw [if_neg hd]
        exact computeWait_get_y_zero FP.pinf (Or.inl rfl) _ _ _

lemma foldl_length (calls : List (PerX × ℕ × PerX)) (mi : ModInterval) :
    (calls.foldl appendCall mi).segments.length =
      mi.segments.length + calls.length := by
  induction calls generalizing mi with
  | nil => simp
  | cons c rest ih =>
    rw [List.foldl_cons, ih, appendCall, append_segment_eq]
    simp
    omega

/-- Claim C4 fails on the code: no configuration is valid in the claimed
sense, because every appended segment has slope `duration / (end - end)`,
which is +infinity (or NaN for a zero duration), so its rate at elapsed
time zero is NaN (or the NaN `zero_x` substitute) and the very first pull
of any non-empty plan panics inside `Duration::from_secs_f64`; the
generator therefore never emits a single timestamp. -/
theorem c4_nonempty_plan_first_pull_panics (c : PerX × ℕ × PerX)
    (calls : List (PerX × ℕ × PerX)) (now : ℕ) :
    pull (ModInterval.into_stream (buildPlan (c :: calls))) now =
      PullResult.panic := by
  have hp : ∀ s ∈ (buildPlan (c :: calls)).segments,
      computeWait (s.get_y (FP.finite 0)) = none :=
    foldl_panics (c :: calls) ModInterval.new (by simp [ModInterval.new])
  obtain ⟨s, rest, hsr⟩ : ∃ s rest, (buildPlan (c :: calls)).segments = s :: rest := by
    have hlen := foldl_length (c :: calls) ModInterval.new
    cases hseg : (buildPlan (c :: calls)).segments with
    | nil =>
      rw [buildPlan] at hseg
      rw [hseg] at hlen
      simp [ModInterval.new] at hlen
    | cons a t => exact ⟨a, t, rfl⟩
  have hs0 : computeWait (s.get_y (FP.finite 0)) = none := by
    apply hp
    rw [hsr]
    exact List.mem_cons_self _ _
  rw [ModInterval.into_stream, hsr, pull_none_cons, pullActive_fresh, emit,
    durToFP_zero, hs0]

/-- Claim C8 fails at `n = 2 ^ 63`: the `u64` product `2 ^ 63 * 60` wraps to
0, so the per-second constructor stores 0 and the derived events-per-second
value is 0, not the claimed `n`. -/
theorem c8_per_second_value_counterexample :
    (PerX.second (2 ^ 63)).as_per_second = FP.finite 0 ∧
    FP.finite ((0 : ℚ)) ≠ FP.finite (((2 ^ 63 : ℕ) : ℚ)) := by
  constructor
  · have hv : (PerX.second (2 ^ 63)).val = 0 := by
      norm_num [PerX.second, U64]
    rw [as_per_second_eq, hv]
    norm_num
  · simp only [ne_eq, FP.finite.injEq]
    push_cast
    norm_num

/-- Claim C8, amended: the two constructors agree for every `n`
(`PerX::second(n)` and `PerX::minute(60 * n)` compute the same `u64`,
wrapping identically), and in the exactly-representable regime of the `f64`
arithmetic — stored counts at most `2 ^ 53` whose quotient by 60 is exact —
the derived events-per-second value of `PerX::minute(m)` for `m` a multiple
of 60 is exactly `m / 60`, and of `PerX::second(n)` is exactly `n` while
`60 * n` is at most `2 ^ 53`. Outside that regime the conversion and
division of the source round, and for `60 * n` at or above `2 ^ 64` the
multiplication wraps (see the counterexample and the overflow claim). -/
theorem c8_unit_normalization_amended :
    (∀ n : ℕ, PerX.second n = PerX.minute (60 * n)) ∧
    (∀ m : ℕ, m ≤ 2 ^ 53 → 60 ∣ m →
      (PerX.minute m).as_per_second = FP.finite ((m / 60 : ℕ) : ℚ)) ∧
    (∀ n : ℕ, 60 * n ≤ 2 ^ 53 →
      (PerX.second n).as_per_second = FP.finite ((n : ℕ) : ℚ)) := by
  have hpow : (2 : ℕ) ^ 53 < 2 ^ 64 := by norm_num
  refine ⟨?_, ?_, ?_⟩
  · intro n
    show (⟨n * 60 % U64⟩ : PerX) = ⟨60 * n % U64⟩
    rw [Nat.mul_comm n 60]
  · intro m hm hdvd
    have hmU : m < U64 := by
      show m < 2 ^ 64
      omega
    rw [minute_as_per_second m hmU]
    congr 1
    rw [Nat.cast_div hdvd (by norm_num : ((60 : ℕ) : ℚ) ≠ 0)]
    norm_num
  · intro n hn
    exact second_as_per_second n (by show n * 60 < 2 ^ 64; omega)

/-- Concrete instance discharging the hypotheses of the amended C8 theorem
at `n = 3`, `m = 120`. -/
theorem c8_unit_normalization_witness :
    PerX.second 3 = PerX.minute (60 * 3) ∧
    ((120 : ℕ) ≤ 2 ^ 53 ∧ 60 ∣ 120 ∧
      (PerX.minute 120).as_per_second = FP.finite ((120 / 60 : ℕ) : ℚ)) ∧
    (60 * 3 ≤ 2 ^ 53 ∧
      (PerX.second 3).as_per_second = FP.finite ((3 : ℕ) : ℚ)) :=
  ⟨c8_unit_normalization_amended.1 3,
   ⟨by norm_num, by norm_num,
    c8_unit_normalization_amended.2.1 120 (by norm_num) (by norm_num)⟩,
   ⟨by norm_num, c8_unit_normalization_amended.2.2 3 (by norm_num)⟩⟩

lemma pullActive_mid (segs : List LinearSegment) (st : ModIntervalStreamState)
    (now : ℕ) (h1 : st.x_offset ≤ now - st.start_time)
    (h2 : ¬ st.segment.duration < now - st.start_time - st.x_offset) :
    pullActive segs st now = emit segs st (now - st.start_time - st.x_offset) now := by
  rw [pullActive.eq_def, if_pos h1, if_neg h2]

/-- The segment produced by
`append_segment(PerX::second(1), Duration::from_secs(1), PerX::second(1))`,
used for the C9 counterexample. -/
def c9seg : LinearSegment :=
  ((ModInterval.new).append_segment (PerX.second 1) 1000000000
    (PerX.second 1)).segments.getD 0 ⟨FP.nan, FP.nan, none, 0⟩

lemma c9seg_eq : c9seg = ⟨FP.pinf, FP.finite 1, none, 1000000000⟩ := by
  rw [c9seg, append_segment_pos ModInterval.new (PerX.second 1) 1000000000 (PerX.second 1)
    (by norm_num) 1 1 (by rw [second_as_per_second 1 (by norm_num [U64])]; norm_num)
    (by rw [second_as_per_second 1 (by norm_num [U64])]; norm_num)
    (by norm_num) (by norm_num)]
  rfl

/-- Claim C9 fails on the code for a +infinite rate: on a pull half a second
into an active segment whose slope is +infinity, the evaluated rate is the
non-finite value +infinity, yet `1000.0 / rate` is `+0.0`, which
`Duration::from_secs_f64` accepts, so the pull does not panic and instead
emits `now` itself after a zero-length suspension. -/
theorem c9_nonfinite_rate_counterexample :
    c9seg.get_y (durToFP 500000000) = FP.pinf ∧
    pull ⟨[], some ⟨0, c9seg, 0⟩⟩ 500000000 =
      PullResult.output 0 500000000 ⟨[], some ⟨0, c9seg, 0⟩⟩ := by
  have hdur : durToFP 500000000 = FP.finite (1 / 2) := by
    rw [durToFP]
    norm_num [NANOS_PER_SEC]
  have hy : c9seg.get_y (durToFP 500000000) = FP.pinf := by
    rw [c9seg_eq, hdur]
    exact get_y_pos_pinf 1 1000000000 (1 / 2) (by norm_num)
  refine ⟨hy, ?_⟩
  rw [pull_some, pullActive_mid]
  · rw [emit]
    have hx : (500000000 : ℕ) - 0 - 0 = 500000000 := by norm_num
    rw [show (⟨0, c9seg, 0⟩ : ModIntervalStreamState).segment = c9seg from rfl, hx, hy,
      computeWait_pinf]
  · norm_num
  · rw [c9seg_eq]
    norm_num

/-- Claim C9, amended: a pull whose evaluated rate is zero, a negative
finite value, or NaN panics inside `Duration::from_secs_f64` (zero rate
gives `1000 / 0 = +infinity`, a negative rate a negative seconds value, NaN
propagates); the non-finite value +infinity instead yields a zero wait and
a successful emission, per the counterexample. -/
theorem c9_bad_rate_pull_panics (segs : List LinearSegment)
    (st : ModIntervalStreamState) (now : ℕ)
    (h1 : st.x_offset ≤ now - st.start_time)
    (h2 : ¬ st.segment.duration < now - st.start_time - st.x_offset)
    (h3 : st.segment.get_y (durToFP (now - st.start_time - st.x_offset)) = FP.nan ∨
      ∃ q : ℚ, q ≤ 0 ∧
        st.segment.get_y (durToFP (now - st.start_time - st.x_offset)) = FP.finite q) :
    pull ⟨segs, some st⟩ now = PullResult.panic := by
  rw [pull_some, pullActive_mid segs st now h1 h2, emit]
  rcases h3 with h | ⟨q, hq, h⟩
  · rw [h, computeWait_nan]
  · rw [h]
    rcases eq_or_lt_of_le hq with heq | hlt
    · rw [heq, computeWait_zero]
    · rw [computeWait, FP.div_finite_finite, if_neg (ne_of_lt hlt),
        fromSecsF64_neg ((1000 : ℚ) / q) (div_neg_of_pos_of_neg (by norm_num) hlt)]

/-- Concrete instance discharging the hypotheses of the amended C9 theorem:
an active segment whose rate function is constantly zero. -/
theorem c9_bad_rate_pull_panics_witness :
    (0 : ℕ) ≤ 0 - 0 ∧ ¬((1000000000 : ℕ) < 0 - 0 - 0) ∧
    LinearSegment.get_y ⟨FP.finite 0, FP.finite 0, none, 1000000000⟩
      (durToFP (0 - 0 - 0)) = FP.finite 0 ∧
    pull ⟨[], some ⟨0, ⟨FP.finite 0, FP.finite 0, none, 1000000000⟩, 0⟩⟩ 0 =
      PullResult.panic := by
  have hy : LinearSegment.get_y ⟨FP.finite 0, FP.finite 0, none, 1000000000⟩
      (durToFP (0 - 0 - 0)) = FP.finite 0 := by
    rw [show (0 : ℕ) - 0 - 0 = 0 from rfl, durToFP_zero, get_y_zero_none]
    norm_num
  exact ⟨by norm_num, by norm_num, hy,
    c9_bad_rate_pull_panics [] ⟨0, ⟨FP.finite 0, FP.finite 0, none, 1000000000⟩, 0⟩ 0
      (by norm_num) (by norm_num) (Or.inr ⟨0, le_refl 0, hy⟩)⟩

end ModIntervalSpec
